import Mathlib

/-!
Verification of the trigger-schema persistence layer and the RBAC resource
model of the zenml control-plane server excerpt.

The development shallowly embeds:

* the opaque-config encoding used by `TriggerSchema.from_request`,
  `TriggerSchema.update` and `TriggerSchema.to_model`
  (`src/zenml/zen_stores/schemas/trigger_schemas.py`): a structured JSON
  document is serialized with `json.dumps` (default separators,
  `ensure_ascii=True`), encoded to UTF-8 bytes and then base64-encoded; the
  decode direction base64-decodes, UTF-8-decodes and JSON-parses;
* the `TriggerSchema` / `TriggerExecutionSchema` rows and their conversion
  functions;
* the foreign-key declarations of those schemas (ondelete policies);
* the RBAC `ResourceType` scoping predicates and the `Resource` validator
  (`src/zenml/zen_server/rbac/models.py`).

Modelling conventions: JSON documents are an inductive `Json` (numbers are
restricted to integers, strings are lists of characters, objects are ordered
association lists, mirroring Python dict insertion order); bytes are natural
numbers below 256; datetimes and UUIDs are opaque natural numbers.  Because
`json.dumps` is called with its default `ensure_ascii=True`, its output is
pure ASCII, so the UTF-8 encode/decode step is modelled by its restriction
to ASCII, on which real UTF-8 agrees byte-for-byte.
-/

/-- A JSON document.  Mirrors the values `json.dumps` accepts in the source
(numbers restricted to integers); objects are ordered key/value lists. -/
inductive Json where
  | null : Json
  | bool (b : Bool) : Json
  | num (n : Int) : Json
  | str (s : List Char) : Json
  | arr (xs : List Json) : Json
  | obj (ms : List (List Char × Json)) : Json
deriving Repr

/-! ## Serialization: model of `json.dumps` with default arguments -/

/-- Lowercase hexadecimal digit, as produced by Python's `"\\u%04x"`. -/
def hexDigitChar (d : Nat) : Char :=
  if d < 10 then Char.ofNat (48 + d) else Char.ofNat (87 + d)

/-- Four lowercase hexadecimal digits for a value below `0x10000`. -/
def hex4 (n : Nat) : List Char :=
  [hexDigitChar (n / 4096 % 16), hexDigitChar (n / 256 % 16),
   hexDigitChar (n / 16 % 16), hexDigitChar (n % 16)]

/-- Escape of one character, as in Python's `json.encoder`
(`ensure_ascii=True`): quote, backslash and the named control escapes as
two-character escapes, other control characters and all non-ASCII as
`\uXXXX` (with a UTF-16 surrogate pair above `0xFFFF`). -/
def escapeChar (c : Char) : List Char :=
  if c = '"' then ['\\', '"']
  else if c = '\\' then ['\\', '\\']
  else if c.toNat = 8 then ['\\', 'b']
  else if c.toNat = 9 then ['\\', 't']
  else if c.toNat = 10 then ['\\', 'n']
  else if c.toNat = 12 then ['\\', 'f']
  else if c.toNat = 13 then ['\\', 'r']
  else if c.toNat < 32 then '\\' :: 'u' :: hex4 c.toNat
  else if c.toNat ≤ 126 then [c]
  else if c.toNat < 65536 then '\\' :: 'u' :: hex4 c.toNat
  else ('\\' :: 'u' :: hex4 (55296 + (c.toNat - 65536) / 1024)) ++
       ('\\' :: 'u' :: hex4 (56320 + (c.toNat - 65536) % 1024))

/-- Escaped body of a JSON string. -/
def escString (s : List Char) : List Char := s.flatMap escapeChar

/-- A serialized JSON string, quotes included. -/
def renderString (s : List Char) : List Char :=
  '"' :: (escString s ++ ['"'])

/-- Decimal digits of a natural number, as in Python's `repr`. -/
def natToDigits (n : Nat) : List Char :=
  if h : n < 10 then [Char.ofNat (48 + n)]
  else natToDigits (n / 10) ++ [Char.ofNat (48 + n % 10)]
decreasing_by exact Nat.div_lt_self (by omega) (by omega)

/-- Decimal rendering of an integer, as in Python's `repr`. -/
def renderInt : Int → List Char
  | Int.ofNat n => natToDigits n
  | Int.negSucc m => '-' :: natToDigits (m + 1)

mutual

/-- Serialization of a document: model of `json.dumps(doc)` with the default
separators `", "` and `": "` and `ensure_ascii=True`. -/
def render : Json → List Char
  | Json.null => ['n', 'u', 'l', 'l']
  | Json.bool true => ['t', 'r', 'u', 'e']
  | Json.bool false => ['f', 'a', 'l', 's', 'e']
  | Json.num n => renderInt n
  | Json.str s => renderString s
  | Json.arr xs => '[' :: (renderElems xs ++ [']'])
  | Json.obj ms => '\x7b' :: (renderMembers ms ++ ['\x7d'])

/-- Comma-separated serialization of array elements. -/
def renderElems : List Json → List Char
  | [] => []
  | [x] => render x
  | x :: y :: xs => render x ++ (',' :: ' ' :: renderElems (y :: xs))

/-- Comma-separated serialization of object members (`"key": value`). -/
def renderMembers : List (List Char × Json) → List Char
  | [] => []
  | [(k, v)] => renderString k ++ (':' :: ' ' :: render v)
  | (k, v) :: m :: ms =>
      renderString k ++ (':' :: ' ' :: render v) ++
        (',' :: ' ' :: renderMembers (m :: ms))

end

/-! ## Byte layer: UTF-8 restricted to ASCII, and base64 -/

/-- Model of `str.encode("utf-8")` on ASCII strings: each character becomes
the byte of its code point.  `json.dumps` output is pure ASCII
(`ensure_ascii=True`), where UTF-8 is the identity on code points. -/
def asciiEncode (cs : List Char) : List Nat := cs.map Char.toNat

/-- Model of `bytes.decode("utf-8")` restricted to ASCII input: bytes below
128 decode to themselves, anything else is rejected.  Real UTF-8 agrees with
this on ASCII bytes. -/
def asciiDecode (bs : List Nat) : Option (List Char) :=
  if bs.all (fun b => b < 128) then some (bs.map Char.ofNat) else none

/-- Base64 alphabet: value `0..63` to ASCII byte, as in `base64.b64encode`. -/
def b64char (k : Nat) : Nat :=
  if k < 26 then 65 + k
  else if k < 52 then 97 + (k - 26)
  else if k < 62 then 48 + (k - 52)
  else if k = 62 then 43
  else 47

/-- Inverse of the base64 alphabet, as in `base64.b64decode`. -/
def b64val (n : Nat) : Option Nat :=
  if 65 ≤ n ∧ n ≤ 90 then some (n - 65)
  else if 97 ≤ n ∧ n ≤ 122 then some (n - 71)
  else if 48 ≤ n ∧ n ≤ 57 then some (n + 4)
  else if n = 43 then some 62
  else if n = 47 then some 63
  else none

/-- Model of `base64.b64encode`: three input bytes become four alphabet
bytes; a final group of one or two bytes is padded with `=` (byte 61). -/
def b64encode : List Nat → List Nat
  | [] => []
  | [a] => [b64char (a / 4), b64char (a % 4 * 16), 61, 61]
  | [a, b] => [b64char (a / 4), b64char (a % 4 * 16 + b / 16),
               b64char (b % 16 * 4), 61]
  | a :: b :: c :: rest =>
      b64char (a / 4) :: b64char (a % 4 * 16 + b / 16) ::
      b64char (b % 16 * 4 + c / 64) :: b64char (c % 64) :: b64encode rest

/-- Model of `base64.b64decode` on well-padded input: groups of four
alphabet bytes, the last group optionally `=`-padded (`=` is byte 61). -/
def b64decode : List Nat → Option (List Nat)
  | [] => some []
  | w :: x :: y :: z :: rest =>
      if y = 61 ∧ z = 61 ∧ rest = [] then
        match b64val w, b64val x with
        | some a, some b => some [a * 4 + b / 16]
        | _, _ => none
      else if z = 61 ∧ rest = [] then
        match b64val w, b64val x, b64val y with
        | some a, some b, some c =>
            some [a * 4 + b / 16, b % 16 * 16 + c / 4]
        | _, _, _ => none
      else
        match b64val w, b64val x, b64val y, b64val z with
        | some a, some b, some c, some d =>
            (b64decode rest).map
              (fun ds => (a * 4 + b / 16) :: (b % 16 * 16 + c / 4) ::
                         (c % 4 * 64 + d) :: ds)
        | _, _, _, _ => none
  | _ => none

/-! ## Parsing: model of `json.loads` -/

/-- The whitespace characters skipped by `json.loads`. -/
def jsonSpace (c : Char) : Bool :=
  c = ' ' || c = '\t' || c = '\n' || c = '\r'

/-- Drop leading JSON whitespace. -/
def skipSpaces : List Char → List Char
  | [] => []
  | c :: rest => if jsonSpace c then skipSpaces rest else c :: rest

/-- Greedily consume decimal digits, accumulating their value. -/
def parseDigits : List Char → Nat → Nat × List Char
  | [], acc => (acc, [])
  | c :: rest, acc =>
      if c.isDigit then parseDigits rest (acc * 10 + (c.toNat - 48))
      else (acc, c :: rest)

/-- Value of one hexadecimal digit (either case), as in `int(s, 16)`. -/
def hexVal (c : Char) : Option Nat :=
  let n := c.toNat
  if 48 ≤ n ∧ n ≤ 57 then some (n - 48)
  else if 97 ≤ n ∧ n ≤ 102 then some (n - 87)
  else if 65 ≤ n ∧ n ≤ 70 then some (n - 55)
  else none

/-- Value of four hexadecimal digits, as read by a `\uXXXX` escape. -/
def parseHex4 (a1 a2 a3 a4 : Char) : Option Nat :=
  match hexVal a1, hexVal a2, hexVal a3, hexVal a4 with
  | some a, some b, some c, some d => some (((a * 16 + b) * 16 + c) * 16 + d)
  | _, _, _, _ => none

/-- The two-character backslash escapes of `json.decoder`. -/
def escMap (e : Char) : Option Char :=
  if e = '"' then some '"'
  else if e = '\\' then some '\\'
  else if e = '/' then some '/'
  else if e = 'b' then some (Char.ofNat 8)
  else if e = 'f' then some (Char.ofNat 12)
  else if e = 'n' then some '\n'
  else if e = 'r' then some '\r'
  else if e = 't' then some '\t'
  else none

/-- Scan one backslash escape (input starts right after the backslash):
either a two-character escape from `escMap`, or a `\uXXXX` escape with
UTF-16 surrogate-pair recombination, as in `json.decoder.py_scanstring`.
Returns the decoded character and the remaining input.  A lone surrogate
is rejected. -/
def scanEsc (rest : List Char) : Option (Char × List Char) :=
  match rest with
  | [] => none
  | e :: rest1 =>
    if e = 'u' then
      match rest1 with
      | a1 :: a2 :: a3 :: a4 :: rest2 =>
        (match parseHex4 a1 a2 a3 a4 with
         | none => none
         | some n =>
           if 55296 ≤ n ∧ n < 56320 then
             match rest2 with
             | b1 :: u1 :: a5 :: a6 :: a7 :: a8 :: rest3 =>
               if b1 = '\\' ∧ u1 = 'u' then
                 match parseHex4 a5 a6 a7 a8 with
                 | none => none
                 | some m =>
                   if 56320 ≤ m ∧ m < 57344 then
                     some (Char.ofNat
                       (65536 + (n - 55296) * 1024 + (m - 56320)), rest3)
                   else none
               else none
             | _ => none
           else if 56320 ≤ n ∧ n < 57344 then none
           else some (Char.ofNat n, rest2))
      | _ => none
    else
      match escMap e with
      | none => none
      | some c2 => some (c2, rest1)

/-- Fuelled body of a JSON string after the opening quote, as scanned by
`json.decoder.py_scanstring`: literal characters up to the closing quote,
backslash escapes via `scanEsc`.  A raw control character is rejected.
Every step consumes at least one input character, so fuel exceeding the
input length never runs out. -/
def psbF : Nat → List Char → Option (List Char × List Char)
  | 0, _ => none
  | fuel + 1, cs =>
    match cs with
    | [] => none
    | c :: rest =>
      if c = '"' then some ([], rest)
      else if c = '\\' then
        match scanEsc rest with
        | none => none
        | some (c2, rest2) =>
            (psbF fuel rest2).map (fun p => (c2 :: p.1, p.2))
      else if c.toNat < 32 then none
      else (psbF fuel rest).map (fun p => (c :: p.1, p.2))

/-- Body of a JSON string after the opening quote (`py_scanstring`): the
fuelled scanner run with enough fuel for the whole input. -/
def parseStringBody (cs : List Char) : Option (List Char × List Char) :=
  psbF (cs.length + 1) cs

mutual

/-- Fuelled recursive-descent parser for one JSON value, as in
`json.loads`: skips leading whitespace, then dispatches on the first
character. -/
def parseVal : Nat → List Char → Option (Json × List Char)
  | 0, _ => none
  | fuel + 1, cs =>
    match skipSpaces cs with
    | [] => none
    | c :: rest =>
      if c = 'n' then
        match rest with
        | 'u' :: 'l' :: 'l' :: r => some (Json.null, r)
        | _ => none
      else if c = 't' then
        match rest with
        | 'r' :: 'u' :: 'e' :: r => some (Json.bool true, r)
        | _ => none
      else if c = 'f' then
        match rest with
        | 'a' :: 'l' :: 's' :: 'e' :: r => some (Json.bool false, r)
        | _ => none
      else if c = '"' then
        match parseStringBody rest with
        | some (s, r) => some (Json.str s, r)
        | none => none
      else if c = '[' then
        match skipSpaces rest with
        | ']' :: r => some (Json.arr [], r)
        | _ =>
          match parseElems fuel rest with
          | some (xs, r) => some (Json.arr xs, r)
          | none => none
      else if c = '\x7b' then
        match skipSpaces rest with
        | '\x7d' :: r => some (Json.obj [], r)
        | _ =>
          match parseMembers fuel rest with
          | some (ms, r) => some (Json.obj ms, r)
          | none => none
      else if c = '-' then
        match rest with
        | c2 :: r2 =>
          if c2.isDigit then
            match parseDigits (c2 :: r2) 0 with
            | (n, r) => some (Json.num (-(n : Int)), r)
          else none
        | [] => none
      else if c.isDigit then
        match parseDigits (c :: rest) 0 with
        | (n, r) => some (Json.num (n : Int), r)
      else none

/-- Parse the elements of a non-empty array body up to `]`. -/
def parseElems : Nat → List Char → Option (List Json × List Char)
  | 0, _ => none
  | fuel + 1, cs =>
    match parseVal fuel cs with
    | none => none
    | some (v, r) =>
      match skipSpaces r with
      | ',' :: r2 =>
        match parseElems fuel r2 with
        | some (vs, r3) => some (v :: vs, r3)
        | none => none
      | ']' :: r2 => some ([v], r2)
      | _ => none

/-- Parse the members of a non-empty object body up to the closing brace. -/
def parseMembers : Nat → List Char → Option (List (List Char × Json) × List Char)
  | 0, _ => none
  | fuel + 1, cs =>
    match skipSpaces cs with
    | '"' :: r =>
      (match parseStringBody r with
       | none => none
       | some (k, r1) =>
         match skipSpaces r1 with
         | ':' :: r2 =>
           (match parseVal fuel r2 with
            | none => none
            | some (v, r3) =>
              match skipSpaces r3 with
              | ',' :: r4 =>
                (match parseMembers fuel r4 with
                 | some (ms, r5) => some ((k, v) :: ms, r5)
                 | none => none)
              | '\x7d' :: r4 => some ([(k, v)], r4)
              | _ => none)
         | _ => none)
    | _ => none

end

/-- Model of `json.loads`: parse one value and require only whitespace to
remain. -/
def loads (cs : List Char) : Option Json :=
  match parseVal (cs.length + 1) cs with
  | some (v, r) => if skipSpaces r = [] then some v else none
  | none => none

/-! ## The persistence-boundary encoding of the trigger schemas -/

/-- Model of `base64.b64encode(json.dumps(doc).encode("utf-8"))`, the encoding used by
`TriggerSchema.from_request`, `TriggerSchema.update` and
`TriggerExecutionSchema.from_request`. -/
def encodeConfig (doc : Json) : List Nat :=
  b64encode (asciiEncode (render doc))

/-- Model of `json.loads(base64.b64decode(blob).decode())`, the decoding used by
`TriggerSchema.to_model` and `TriggerExecutionSchema.to_model`. -/
def decodeConfig (blob : List Nat) : Option Json :=
  (b64decode blob).bind (fun bs => (asciiDecode bs).bind loads)

/-! ## The trigger schemas (`zen_stores/schemas/trigger_schemas.py`)

UUIDs and datetimes are opaque natural numbers.  ORM relationship objects
(`workspace`, `user`, `event_source`) are carried as plain identifiers (and,
for the event source, its flavor), and their `to_model` conversions are
modelled as those identifiers, since the related schema classes are outside
this excerpt. -/

/-- The `EventSourceSchema` relationship data used by `TriggerSchema`
(`event_source.flavor` and `event_source.to_model`): its row id and flavor. -/
structure EventSourceRef where
  id : Nat
  flavor : String
deriving DecidableEq, Repr

/-- The `TriggerSchema` row.  `event_filter` and `action` are the raw persisted
bytes.  `description` is a nullable TEXT column. -/
structure TriggerSchema where
  id : Nat
  name : String
  workspace_id : Nat
  user_id : Option Nat
  event_source_id : Option Nat
  event_filter : List Nat
  action : List Nat
  action_flavor : String
  action_subtype : String
  description : Option String
  is_active : Bool
  created : Nat
  updated : Nat
  workspace : Nat
  event_source : EventSourceRef
deriving DecidableEq, Repr

/-- Modelled from the spec: the `TriggerUpdate` request model (its class
body is outside this excerpt; the spec says a trigger is `mutated via
partial update (only supplied fields change)`).  Each field is optional;
`none` stands for a field that is unset or supplied as `None` — the two are
indistinguishable to `dict(exclude_unset=True, exclude_none=True)`. -/
structure TriggerUpdate where
  name : Option String := none
  description : Option String := none
  event_filter : Option Json := none
  action : Option Json := none
  is_active : Option Bool := none
deriving Repr

/-- Model of `TriggerSchema.update`: iterate over the supplied, non-`None` fields of
the update; `event_filter` and `action` are re-encoded wholesale, any other
supplied field is assigned; `updated` is set to `datetime.utcnow()`
(modelled by the `now` argument). -/
def TriggerSchema.update (s : TriggerSchema) (u : TriggerUpdate) (now : Nat) :
    TriggerSchema :=
  { s with
    name := u.name.getD s.name
    description := match u.description with
      | some d => some d
      | none => s.description
    event_filter := match u.event_filter with
      | some f => encodeConfig f
      | none => s.event_filter
    action := match u.action with
      | some a => encodeConfig a
      | none => s.action
    is_active := u.is_active.getD s.is_active
    updated := now }

/-- The fields of `TriggerRequest` read by `TriggerSchema.from_request`
(the request class body is outside this excerpt; the field list is exactly
what `from_request` accesses). -/
structure TriggerRequest where
  name : String
  workspace : Nat
  user : Option Nat
  action : Json
  action_flavor : String
  action_subtype : String
  event_source_id : Nat
  event_filter : Json
  description : Option String
deriving Repr

/-- Model of `TriggerSchema.from_request`: encode the `action` and `event_filter`
documents and always create the row active
(`is_active=True — makes no sense for it to be created inactive`).
`id`/`created`/`updated` come from the schema base defaults and the
relationship from the ORM; they are passed as arguments here. -/
def TriggerSchema.from_request (request : TriggerRequest) (id now : Nat)
    (es : EventSourceRef) : TriggerSchema :=
  { id := id
    name := request.name
    workspace_id := request.workspace
    user_id := request.user
    event_source_id := some request.event_source_id
    event_filter := encodeConfig request.event_filter
    action := encodeConfig request.action
    action_flavor := request.action_flavor
    action_subtype := request.action_subtype
    description := request.description
    is_active := true
    created := now
    updated := now
    workspace := request.workspace
    event_source := es }

/-- The `TriggerResponseBody` model. -/
structure TriggerResponseBody where
  user : Option Nat
  created : Nat
  updated : Nat
  action_flavor : String
  action_subtype : String
  event_source_flavor : String
  is_active : Bool
deriving DecidableEq, Repr

/-- The `TriggerResponseMetadata` model. -/
structure TriggerResponseMetadata where
  workspace : Nat
  event_filter : Json
  action : Json
  description : Option String
  event_source : Nat
deriving Repr

/-- The `TriggerResponseResources` model. -/
structure TriggerResponseResources where
  event_source : Nat
deriving DecidableEq, Repr

/-- The `TriggerResponse` model. -/
structure TriggerResponse where
  id : Nat
  name : String
  body : TriggerResponseBody
  metadata : Option TriggerResponseMetadata
  resources : Option TriggerResponseResources
deriving Repr

/-- Model of `TriggerSchema.to_model`: the body is always populated; metadata only
when `include_metadata` (decoding the persisted `event_filter` and `action`
blobs — a decode failure, which in Python would raise, is `none` here);
resources only when `include_resources`. -/
def TriggerSchema.to_model (s : TriggerSchema)
    (include_metadata : Bool) (include_resources : Bool) :
    Option TriggerResponse :=
  let body : TriggerResponseBody :=
    { user := s.user_id
      created := s.created
      updated := s.updated
      action_flavor := s.action_flavor
      action_subtype := s.action_subtype
      event_source_flavor := s.event_source.flavor
      is_active := s.is_active }
  let resources : Option TriggerResponseResources :=
    if include_resources then some { event_source := s.event_source.id }
    else none
  if include_metadata then
    match decodeConfig s.event_filter, decodeConfig s.action with
    | some ef, some ac =>
        some { id := s.id
               name := s.name
               body := body
               metadata := some { workspace := s.workspace
                                  event_filter := ef
                                  action := ac
                                  description := s.description
                                  event_source := s.event_source.id }
               resources := resources }
    | _, _ => none
  else
    some { id := s.id
           name := s.name
           body := body
           metadata := none
           resources := resources }

/-- The `TriggerExecutionSchema` row. `event_metadata` is a nullable bytes
column. -/
structure TriggerExecutionSchema where
  id : Nat
  trigger_id : Nat
  event_metadata : Option (List Nat)
  created : Nat
  updated : Nat
  trigger : TriggerSchema
deriving DecidableEq, Repr

/-- The `TriggerExecutionResponseBody` model. -/
structure TriggerExecutionResponseBody where
  trigger : Option TriggerResponse
  created : Nat
  updated : Nat
deriving Repr

/-- The `TriggerExecutionResponseMetadata` model. -/
structure TriggerExecutionResponseMetadata where
  event_metadata : Json
deriving Repr

/-- The `TriggerExecutionResponse` model. -/
structure TriggerExecutionResponse where
  id : Nat
  body : TriggerExecutionResponseBody
  metadata : Option TriggerExecutionResponseMetadata
deriving Repr

/-- Model of `TriggerExecutionSchema.to_model`: the metadata document is decoded
only when `event_metadata` is truthy (neither `None` nor empty bytes);
otherwise the empty document stands in
(`json.loads(...) if self.event_metadata else {}`). -/
def TriggerExecutionSchema.to_model (e : TriggerExecutionSchema)
    (include_metadata : Bool) (include_resources : Bool) :
    Option TriggerExecutionResponse :=
  let body : TriggerExecutionResponseBody :=
    { trigger := e.trigger.to_model false false
      created := e.created
      updated := e.updated }
  if include_metadata then
    match (match e.event_metadata with
           | none => some (Json.obj [])
           | some bs =>
             if bs = [] then some (Json.obj []) else decodeConfig bs) with
    | some md =>
        some { id := e.id
               body := body
               metadata := some { event_metadata := md } }
    | none => none
  else
    some { id := e.id, body := body, metadata := none }

/-! ## Foreign-key declarations of the trigger schemas -/

/-- An `ondelete` referential action. -/
inductive OnDelete where
  | CASCADE : OnDelete
  | SET_NULL : OnDelete
  | RESTRICT : OnDelete
deriving DecidableEq, Repr

/-- A `build_foreign_key_field` declaration. -/
structure ForeignKeyField where
  source : String
  target : String
  source_column : String
  target_column : String
  ondelete : OnDelete
  nullable : Bool
deriving DecidableEq, Repr

/-- The `TriggerSchema.workspace_id` foreign key. -/
def triggerSchema_workspace_fk : ForeignKeyField :=
  { source := "trigger", target := "workspace", source_column := "workspace_id"
    target_column := "id", ondelete := OnDelete.CASCADE, nullable := false }

/-- The `TriggerSchema.user_id` foreign key. -/
def triggerSchema_user_fk : ForeignKeyField :=
  { source := "trigger", target := "user", source_column := "user_id"
    target_column := "id", ondelete := OnDelete.SET_NULL, nullable := true }

/-- The `TriggerSchema.event_source_id` foreign key, declared with
`ondelete="CASCADE"` and the code comment `TODO: this should be set null
and the trigger should be deactivated`. -/
def triggerSchema_event_source_fk : ForeignKeyField :=
  { source := "trigger", target := "event_source"
    source_column := "event_source_id", target_column := "id"
    ondelete := OnDelete.CASCADE, nullable := false }

/-- The `TriggerExecutionSchema.trigger_id` foreign key. -/
def triggerExecution_trigger_fk : ForeignKeyField :=
  { source := "trigger_execution", target := "trigger"
    source_column := "trigger_id", target_column := "id"
    ondelete := OnDelete.CASCADE, nullable := false }

/-- Standard SQL semantics of deleting an event source row, applied to the
trigger table under the declared `ondelete` policy of
`TriggerSchema.event_source_id`. -/
def deleteEventSource (triggers : List TriggerSchema) (esId : Nat) :
    List TriggerSchema :=
  match triggerSchema_event_source_fk.ondelete with
  | OnDelete.CASCADE => triggers.filter (fun t => t.event_source_id ≠ some esId)
  | OnDelete.SET_NULL =>
      triggers.map (fun t =>
        if t.event_source_id = some esId then { t with event_source_id := none }
        else t)
  | OnDelete.RESTRICT => triggers

/-- Standard SQL semantics of deleting a trigger row, applied to the
trigger-execution table under the declared `ondelete` policy of
`TriggerExecutionSchema.trigger_id`. -/
def deleteTrigger (execs : List TriggerExecutionSchema) (tid : Nat) :
    List TriggerExecutionSchema :=
  match triggerExecution_trigger_fk.ondelete with
  | OnDelete.CASCADE => execs.filter (fun e => e.trigger_id ≠ tid)
  | OnDelete.SET_NULL => execs
  | OnDelete.RESTRICT => execs

/-! ## RBAC models (`zen_server/rbac/models.py`) -/

/-- The `ResourceType` enumeration: the resource types of the server API (with `USER` and
`WORKSPACE` deactivated in the source). -/
inductive ResourceType where
  | ACTION : ResourceType
  | ARTIFACT : ResourceType
  | ARTIFACT_VERSION : ResourceType
  | CODE_REPOSITORY : ResourceType
  | EVENT_SOURCE : ResourceType
  | FLAVOR : ResourceType
  | MODEL : ResourceType
  | MODEL_VERSION : ResourceType
  | PIPELINE : ResourceType
  | PIPELINE_RUN : ResourceType
  | PIPELINE_DEPLOYMENT : ResourceType
  | PIPELINE_BUILD : ResourceType
  | RUN_TEMPLATE : ResourceType
  | SERVICE : ResourceType
  | RUN_METADATA : ResourceType
  | SECRET : ResourceType
  | SERVICE_ACCOUNT : ResourceType
  | SERVICE_CONNECTOR : ResourceType
  | STACK : ResourceType
  | STACK_COMPONENT : ResourceType
  | TAG : ResourceType
  | TRIGGER : ResourceType
  | TRIGGER_EXECUTION : ResourceType
deriving DecidableEq, Repr

/-- Model of `ResourceType.is_flexible_scoped`. -/
def ResourceType.is_flexible_scoped (t : ResourceType) : Bool :=
  t ∈ [ResourceType.FLAVOR, ResourceType.SECRET,
    ResourceType.SERVICE_CONNECTOR, ResourceType.STACK,
    ResourceType.STACK_COMPONENT]

/-- Model of `ResourceType.is_unscoped`. -/
def ResourceType.is_unscoped (t : ResourceType) : Bool :=
  t ∈ [ResourceType.SERVICE_ACCOUNT]

/-- Model of `ResourceType.is_workspace_scoped`. -/
def ResourceType.is_workspace_scoped (t : ResourceType) : Bool :=
  !t.is_flexible_scoped && !t.is_unscoped

/-- The RBAC `Resource` model (its `type` kept as a `ResourceType`; the
source stores the string and converts with `ResourceType(self.type)` in the
validator). -/
structure Resource where
  type : ResourceType
  id : Option Nat
  workspace_id : Option Nat
deriving DecidableEq, Repr

/-- Construction of a `Resource` including its `validate_workspace_id`
model validator: a `ValueError` (modelled as `Except.error`) is raised iff
a workspace-scoped type lacks a `workspace_id` or an unscoped type has one
(`not self.workspace_id` is `None`-ness: `UUID` objects are always
truthy). -/
def mkResource (t : ResourceType) (rid wid : Option Nat) :
    Except String Resource :=
  if t.is_workspace_scoped = true ∧ wid = none then
    Except.error "workspace_id must be set for workspace-scoped resource type"
  else if t.is_unscoped = true ∧ wid ≠ none then
    Except.error "workspace_id must not be set for unscoped resource type"
  else Except.ok { type := t, id := rid, workspace_id := wid }

/-! ## Concrete fixtures used by witnesses and counterexamples -/

/-- The document from the spec scenario: the first filter. -/
def docA : Json := Json.obj [(['a'], Json.num 1)]

/-- The document from the spec scenario: the replacement filter. -/
def docB : Json := Json.obj [(['b'], Json.num 2)]

/-- A concrete trigger row (filter `docA`, event source 7, timestamps 0). -/
def testTrigger : TriggerSchema :=
  { id := 1
    name := "t1"
    workspace_id := 10
    user_id := none
    event_source_id := some 7
    event_filter := encodeConfig docA
    action := encodeConfig docA
    action_flavor := "builtin"
    action_subtype := "PipelineRun"
    description := none
    is_active := true
    created := 0
    updated := 0
    workspace := 10
    event_source := { id := 7, flavor := "webhook" } }

/-- A trigger update supplying only the replacement filter `docB`. -/
def updB : TriggerUpdate := { event_filter := some docB }

/-- A concrete trigger-execution row with absent event metadata. -/
def testExec : TriggerExecutionSchema :=
  { id := 2
    trigger_id := 3
    event_metadata := none
    created := 0
    updated := 0
    trigger := testTrigger }

/-! ## Character-level helper lemmas -/

theorem charEqIffToNat (c d : Char) : c = d ↔ c.toNat = d.toNat :=
  ⟨fun h => by rw [h], fun h => Char.ext (UInt32.ext h)⟩

theorem isDigitIff (c : Char) : c.isDigit = true ↔ 48 ≤ c.toNat ∧ c.toNat ≤ 57 := by
  simp only [Char.isDigit, Bool.and_eq_true, decide_eq_true_eq]
  exact Iff.rfl

theorem toNatOfNatValid (n : Nat) (h : Nat.isValidChar n) :
    (Char.ofNat n).toNat = n := by
  simp only [Char.ofNat, dif_pos h, Char.ofNatAux, Char.toNat]
  rfl

theorem toNatOfNatLow (n : Nat) (h : n < 55296) : (Char.ofNat n).toNat = n :=
  toNatOfNatValid n (Or.inl h)

theorem charToNatLt (c : Char) : c.toNat < 1114112 := by
  rcases c.valid with h | h
  · exact Nat.lt_trans h (by norm_num)
  · exact h.2

theorem charToNatNotSurrogate (c : Char) :
    c.toNat < 55296 ∨ (57343 < c.toNat ∧ c.toNat < 1114112) := c.valid

/-! ## Base64 round-trip -/

theorem b64val_b64char : ∀ k < 64, b64val (b64char k) = some k := by decide

theorem b64char_ne61 (k : Nat) : b64char k ≠ 61 := by
  unfold b64char
  split_ifs <;> omega

theorem b64decode_cons (w x y z : Nat) (rest : List Nat) (a b c d : Nat)
    (hw : b64val w = some a) (hx : b64val x = some b)
    (hy : b64val y = some c) (hz : b64val z = some d)
    (hy61 : y ≠ 61) (hz61 : z ≠ 61) :
    b64decode (w :: x :: y :: z :: rest) =
      (b64decode rest).map
        (fun ds => (a * 4 + b / 16) :: (b % 16 * 16 + c / 4) ::
                   (c % 4 * 64 + d) :: ds) := by
  simp only [b64decode]
  rw [if_neg (by tauto), if_neg (by tauto), hw, hx, hy, hz]

theorem b64_roundtrip : ∀ bs : List Nat, (∀ b ∈ bs, b < 256) →
    b64decode (b64encode bs) = some bs := by
  intro bs
  induction bs using b64encode.induct with
  | case1 => intro _; rfl
  | case2 a =>
      intro h
      have ha : a < 256 := h a (by simp)
      show b64decode [b64char (a / 4), b64char (a % 4 * 16), 61, 61] = some [a]
      have h1 := b64val_b64char (a / 4) (by omega)
      have h2 := b64val_b64char (a % 4 * 16) (by omega)
      unfold b64decode
      rw [if_pos ⟨rfl, rfl, rfl⟩, h1, h2]
      have e1 : a % 4 * 16 / 16 = a % 4 := by omega
      simp only [e1]
      have e2 : a / 4 * 4 + a % 4 = a := by omega
      simp only [e2]
  | case3 a b =>
      intro h
      have ha : a < 256 := h a (by simp)
      have hb : b < 256 := h b (by simp)
      show b64decode [b64char (a / 4), b64char (a % 4 * 16 + b / 16),
        b64char (b % 16 * 4), 61] = some [a, b]
      have h1 := b64val_b64char (a / 4) (by omega)
      have h2 := b64val_b64char (a % 4 * 16 + b / 16) (by omega)
      have h3 := b64val_b64char (b % 16 * 4) (by omega)
      unfold b64decode
      rw [if_neg (by have := b64char_ne61 (b % 16 * 4); tauto),
        if_pos ⟨rfl, rfl⟩, h1, h2, h3]
      have e1 : a / 4 * 4 + (a % 4 * 16 + b / 16) / 16 = a := by omega
      have e2 : (a % 4 * 16 + b / 16) % 16 * 16 + b % 16 * 4 / 4 = b := by omega
      simp only [e1, e2]
  | case4 a b c rest ih =>
      intro h
      have ha : a < 256 := h a (by simp)
      have hb : b < 256 := h b (by simp)
      have hc : c < 256 := h c (by simp)
      have hrest : ∀ x ∈ rest, x < 256 := fun x hx => h x (by simp [hx])
      show b64decode (b64char (a / 4) :: b64char (a % 4 * 16 + b / 16) ::
        b64char (b % 16 * 4 + c / 64) :: b64char (c % 64) :: b64encode rest) = _
      rw [b64decode_cons _ _ _ _ _ _ _ _ _
        (b64val_b64char (a / 4) (by omega))
        (b64val_b64char (a % 4 * 16 + b / 16) (by omega))
        (b64val_b64char (b % 16 * 4 + c / 64) (by omega))
        (b64val_b64char (c % 64) (by omega))
        (b64char_ne61 _) (b64char_ne61 _),
        ih hrest]
      have e1 : a / 4 * 4 + (a % 4 * 16 + b / 16) / 16 = a := by omega
      have e2 : (a % 4 * 16 + b / 16) % 16 * 16 + (b % 16 * 4 + c / 64) / 4 = b := by
        omega
      have e3 : (b % 16 * 4 + c / 64) % 4 * 64 + c % 64 = c := by omega
      simp only [Option.map_some', e1, e2, e3]

/-! ## ASCII round-trip -/

theorem ascii_roundtrip (cs : List Char) (h : ∀ c ∈ cs, c.toNat < 128) :
    asciiDecode (asciiEncode cs) = some cs := by
  have hmap : ∀ l : List Char, (l.map Char.toNat).map Char.ofNat = l := by
    intro l
    induction l with
    | nil => rfl
    | cons c t ih => simp [Char.ofNat_toNat, ih]
  unfold asciiEncode asciiDecode
  rw [if_pos]
  · rw [hmap]
  · simp only [List.all_eq_true, List.mem_map, decide_eq_true_eq]
    rintro b ⟨c, hc, rfl⟩
    exact h c hc

/-! ## The serializer emits only ASCII (`ensure_ascii=True`) -/

theorem hex4_ascii (n : Nat) : ∀ c ∈ hex4 n, c.toNat < 128 := by
  have hd : ∀ d : Nat, d < 16 → (hexDigitChar d).toNat < 128 := by decide
  intro c hc
  simp only [hex4, List.mem_cons, List.mem_singleton, List.not_mem_nil] at hc
  rcases hc with rfl | rfl | rfl | rfl | h
  · exact hd _ (Nat.mod_lt _ (by omega))
  · exact hd _ (Nat.mod_lt _ (by omega))
  · exact hd _ (Nat.mod_lt _ (by omega))
  · exact hd _ (Nat.mod_lt _ (by omega))
  · exact absurd h (by simp)

theorem escU_ascii (m : Nat) : ∀ d ∈ ('\\' :: 'u' :: hex4 m), d.toNat < 128 := by
  intro d hd
  simp only [List.mem_cons] at hd
  rcases hd with rfl | rfl | h
  · decide
  · decide
  · exact hex4_ascii m d h

theorem escapeChar_ascii (c : Char) : ∀ d ∈ escapeChar c, d.toNat < 128 := by
  intro d hd
  unfold escapeChar at hd
  by_cases h1 : c = '"'
  · rw [if_pos h1] at hd
    simp only [List.mem_cons, List.not_mem_nil, or_false] at hd
    rcases hd with rfl | rfl <;> decide
  rw [if_neg h1] at hd
  by_cases h2 : c = '\\'
  · rw [if_pos h2] at hd
    simp only [List.mem_cons, List.not_mem_nil, or_false] at hd
    rcases hd with rfl | rfl <;> decide
  rw [if_neg h2] at hd
  by_cases h3 : c.toNat = 8
  · rw [if_pos h3] at hd
    simp only [List.mem_cons, List.not_mem_nil, or_false] at hd
    rcases hd with rfl | rfl <;> decide
  rw [if_neg h3] at hd
  by_cases h4 : c.toNat = 9
  · rw [if_pos h4] at hd
    simp only [List.mem_cons, List.not_mem_nil, or_false] at hd
    rcases hd with rfl | rfl <;> decide
  rw [if_neg h4] at hd
  by_cases h5 : c.toNat = 10
  · rw [if_pos h5] at hd
    simp only [List.mem_cons, List.not_mem_nil, or_false] at hd
    rcases hd with rfl | rfl <;> decide
  rw [if_neg h5] at hd
  by_cases h6 : c.toNat = 12
  · rw [if_pos h6] at hd
    simp only [List.mem_cons, List.not_mem_nil, or_false] at hd
    rcases hd with rfl | rfl <;> decide
  rw [if_neg h6] at hd
  by_cases h7 : c.toNat = 13
  · rw [if_pos h7] at hd
    simp only [List.mem_cons, List.not_mem_nil, or_false] at hd
    rcases hd with rfl | rfl <;> decide
  rw [if_neg h7] at hd
  by_cases h8 : c.toNat < 32
  · rw [if_pos h8] at hd
    exact escU_ascii _ d hd
  rw [if_neg h8] at hd
  by_cases h9 : c.toNat ≤ 126
  · rw [if_pos h9] at hd
    simp only [List.mem_cons, List.not_mem_nil, or_false] at hd
    subst hd
    omega
  rw [if_neg h9] at hd
  by_cases h10 : c.toNat < 65536
  · rw [if_pos h10] at hd
    exact escU_ascii _ d hd
  rw [if_neg h10] at hd
  rcases List.mem_append.mp hd with h | h
  · exact escU_ascii _ d h
  · exact escU_ascii _ d h

theorem escString_ascii (s : List Char) : ∀ d ∈ escString s, d.toNat < 128 := by
  intro d hd
  simp only [escString, List.mem_flatMap] at hd
  obtain ⟨c, _, hc⟩ := hd
  exact escapeChar_ascii c d hc

theorem renderString_ascii (s : List Char) :
    ∀ d ∈ renderString s, d.toNat < 128 := by
  intro d hd
  simp only [renderString, List.mem_cons, List.mem_append,
    List.mem_singleton, List.not_mem_nil, or_false] at hd
  rcases hd with rfl | h | rfl
  · decide
  · exact escString_ascii s d h
  · decide

theorem natToDigits_bounds (n : Nat) :
    ∀ c ∈ natToDigits n, 48 ≤ c.toNat ∧ c.toNat ≤ 57 := by
  induction n using natToDigits.induct with
  | case1 n h =>
      intro c hc
      rw [natToDigits, dif_pos h] at hc
      simp only [List.mem_singleton] at hc
      subst hc
      rw [toNatOfNatLow _ (by omega)]
      omega
  | case2 n h ih =>
      intro c hc
      rw [natToDigits, dif_neg h] at hc
      simp only [List.mem_append, List.mem_singleton] at hc
      rcases hc with h2 | rfl
      · exact ih c h2
      · rw [toNatOfNatLow _ (by omega)]
        have := Nat.mod_lt n (show 0 < 10 by omega)
        omega

theorem natToDigits_ascii (n : Nat) : ∀ c ∈ natToDigits n, c.toNat < 128 := by
  intro c hc
  have := natToDigits_bounds n c hc
  omega

theorem renderInt_ascii (i : Int) : ∀ c ∈ renderInt i, c.toNat < 128 := by
  intro c hc
  cases i with
  | ofNat n => exact natToDigits_ascii n c hc
  | negSucc m =>
      simp only [renderInt, List.mem_cons] at hc
      rcases hc with rfl | h
      · decide
      · exact natToDigits_ascii _ c h

mutual

theorem render_ascii : ∀ v : Json, ∀ c ∈ render v, c.toNat < 128
  | Json.null => by intro c hc; simp only [render] at hc; fin_cases hc <;> decide
  | Json.bool true => by
      intro c hc; simp only [render] at hc; fin_cases hc <;> decide
  | Json.bool false => by
      intro c hc; simp only [render] at hc; fin_cases hc <;> decide
  | Json.num n => by
      intro c hc; simp only [render] at hc; exact renderInt_ascii n c hc
  | Json.str s => by
      intro c hc; simp only [render] at hc; exact renderString_ascii s c hc
  | Json.arr xs => by
      intro c hc
      simp only [render, List.mem_cons, List.mem_append,
        List.mem_singleton, List.not_mem_nil, or_false] at hc
      rcases hc with rfl | h | rfl
      · decide
      · exact renderElems_ascii xs c h
      · decide
  | Json.obj ms => by
      intro c hc
      simp only [render, List.mem_cons, List.mem_append,
        List.mem_singleton, List.not_mem_nil, or_false] at hc
      rcases hc with rfl | h | rfl
      · decide
      · exact renderMembers_ascii ms c h
      · decide

theorem renderElems_ascii : ∀ xs : List Json, ∀ c ∈ renderElems xs, c.toNat < 128
  | [] => by intro c hc; simp [renderElems] at hc
  | [x] => by
      intro c hc; simp only [renderElems] at hc; exact render_ascii x c hc
  | x :: y :: xs => by
      intro c hc
      simp only [renderElems, List.mem_append, List.mem_cons] at hc
      rcases hc with h | rfl | rfl | h
      · exact render_ascii x c h
      · decide
      · decide
      · exact renderElems_ascii (y :: xs) c h

theorem renderMembers_ascii :
    ∀ ms : List (List Char × Json), ∀ c ∈ renderMembers ms, c.toNat < 128
  | [] => by intro c hc; simp [renderMembers] at hc
  | [(k, v)] => by
      intro c hc
      simp only [renderMembers, List.mem_append, List.mem_cons] at hc
      rcases hc with h | rfl | rfl | h
      · exact renderString_ascii k c h
      · decide
      · decide
      · exact render_ascii v c h
  | (k, v) :: m :: ms => by
      intro c hc
      simp only [renderMembers, List.mem_append, List.mem_cons] at hc
      rcases hc with (h | rfl | rfl | h) | rfl | rfl | h
      · exact renderString_ascii k c h
      · decide
      · decide
      · exact render_ascii v c h
      · decide
      · decide
      · exact renderMembers_ascii (m :: ms) c h

end

/-! ## Digit and whitespace helper lemmas for the parser -/

/-- Whether a character list starts with a decimal digit. -/
def headDigit : List Char → Bool
  | [] => false
  | c :: _ => c.isDigit

/-- The numeric value accumulated by `parseDigits`. -/
def digitsVal (acc : Nat) (ds : List Char) : Nat :=
  ds.foldl (fun a c => a * 10 + (c.toNat - 48)) acc

theorem skipSpaces_notSpace (c : Char) (t : List Char) (h : jsonSpace c = false) :
    skipSpaces (c :: t) = c :: t := by
  unfold skipSpaces
  rw [h]
  simp

theorem digit_not_space (c : Char) (h : c.isDigit = true) : jsonSpace c = false := by
  rw [isDigitIff] at h
  have h1 : c ≠ ' ' := fun he => by subst he; revert h; decide
  have h2 : c ≠ '\t' := fun he => by subst he; revert h; decide
  have h3 : c ≠ '\n' := fun he => by subst he; revert h; decide
  have h4 : c ≠ '\r' := fun he => by subst he; revert h; decide
  unfold jsonSpace
  simp [h1, h2, h3, h4]

theorem digitsVal_nil (acc : Nat) : digitsVal acc [] = acc := rfl

theorem digitsVal_append (acc : Nat) (ds1 ds2 : List Char) :
    digitsVal acc (ds1 ++ ds2) = digitsVal (digitsVal acc ds1) ds2 := by
  unfold digitsVal
  rw [List.foldl_append]

theorem digitsVal_single (acc : Nat) (c : Char) :
    digitsVal acc [c] = acc * 10 + (c.toNat - 48) := rfl

theorem parseDigits_spec (ds : List Char) :
    ∀ rest acc, (∀ c ∈ ds, c.isDigit = true) → headDigit rest = false →
    parseDigits (ds ++ rest) acc = (digitsVal acc ds, rest) := by
  induction ds with
  | nil =>
      intro rest acc _ hrest
      cases rest with
      | nil => rfl
      | cons c t =>
          simp only [headDigit] at hrest
          simp only [List.nil_append]
          unfold parseDigits
          simp [hrest, digitsVal_nil]
  | cons c ds ih =>
      intro rest acc hds hrest
      have hc : c.isDigit = true := hds c (by simp)
      show parseDigits (c :: (ds ++ rest)) acc = _
      unfold parseDigits
      simp only [hc, if_true]
      rw [ih rest _ (fun d hd => hds d (by simp [hd])) hrest]
      rfl

theorem natToDigits_val (n : Nat) :
    ∀ acc, digitsVal acc (natToDigits n) =
      acc * 10 ^ (natToDigits n).length + n := by
  induction n using natToDigits.induct with
  | case1 n h =>
      intro acc
      rw [natToDigits, dif_pos h]
      rw [digitsVal_single, toNatOfNatLow _ (by omega)]
      simp only [List.length_singleton, pow_one]
      omega
  | case2 n h ih =>
      intro acc
      rw [natToDigits, dif_neg h]
      rw [digitsVal_append, ih acc, digitsVal_single,
        toNatOfNatLow _ (by have := Nat.mod_lt n (show 0 < 10 by omega); omega),
        List.length_append, List.length_singleton, pow_succ]
      have h48 : 48 + n % 10 - 48 = n % 10 := by omega
      rw [h48]
      have h1 : n / 10 * 10 + n % 10 = n := by omega
      calc (acc * 10 ^ (natToDigits (n / 10)).length + n / 10) * 10 + n % 10
          = acc * (10 ^ (natToDigits (n / 10)).length * 10) +
              (n / 10 * 10 + n % 10) := by ring
        _ = acc * (10 ^ (natToDigits (n / 10)).length * 10) + n := by rw [h1]

theorem natToDigits_all_digits (n : Nat) :
    ∀ c ∈ natToDigits n, c.isDigit = true := by
  intro c hc
  rw [isDigitIff]
  exact natToDigits_bounds n c hc

theorem natToDigits_head (n : Nat) :
    ∃ c t, natToDigits n = c :: t ∧ c.isDigit = true := by
  induction n using natToDigits.induct with
  | case1 n h =>
      refine ⟨Char.ofNat (48 + n), [], by rw [natToDigits, dif_pos h], ?_⟩
      rw [isDigitIff, toNatOfNatLow _ (by omega)]
      omega
  | case2 n h ih =>
      obtain ⟨c, t, he, hd⟩ := ih
      exact ⟨c, t ++ [Char.ofNat (48 + n % 10)],
        by rw [natToDigits, dif_neg h, he]; rfl, hd⟩

theorem parseDigits_natToDigits (n : Nat) (rest : List Char)
    (hrest : headDigit rest = false) :
    parseDigits (natToDigits n ++ rest) 0 = (n, rest) := by
  rw [parseDigits_spec _ rest 0 (natToDigits_all_digits n) hrest,
    natToDigits_val n 0]
  simp

/-! ## Hexadecimal escape lemmas -/

theorem hexVal_hexDigitChar : ∀ d < 16, hexVal (hexDigitChar d) = some d := by
  decide

theorem hex4_def (n : Nat) :
    hex4 n = [hexDigitChar (n / 4096 % 16), hexDigitChar (n / 256 % 16),
      hexDigitChar (n / 16 % 16), hexDigitChar (n % 16)] := rfl

theorem hex4_recombine (n : Nat) (h : n < 65536) :
    ((n / 4096 % 16 * 16 + n / 256 % 16) * 16 + n / 16 % 16) * 16 + n % 16
      = n := by omega

/-! ## String escape/parse round-trip -/

theorem parseHex4_hex4 (n : Nat) (h : n < 65536) :
    parseHex4 (hexDigitChar (n / 4096 % 16)) (hexDigitChar (n / 256 % 16))
      (hexDigitChar (n / 16 % 16)) (hexDigitChar (n % 16)) = some n := by
  unfold parseHex4
  rw [hexVal_hexDigitChar _ (by omega), hexVal_hexDigitChar _ (by omega),
    hexVal_hexDigitChar _ (by omega), hexVal_hexDigitChar _ (by omega)]
  exact congrArg some (hex4_recombine n h)

theorem scanEsc_quote (t : List Char) : scanEsc ('"' :: t) = some ('"', t) := rfl

theorem scanEsc_bs (t : List Char) : scanEsc ('\\' :: t) = some ('\\', t) := rfl

theorem scanEsc_b (t : List Char) : scanEsc ('b' :: t) = some (Char.ofNat 8, t) := rfl

theorem scanEsc_t (t : List Char) : scanEsc ('t' :: t) = some ('\t', t) := rfl

theorem scanEsc_n (t : List Char) : scanEsc ('n' :: t) = some ('\n', t) := rfl

theorem scanEsc_f (t : List Char) : scanEsc ('f' :: t) = some (Char.ofNat 12, t) := rfl

theorem scanEsc_r (t : List Char) : scanEsc ('r' :: t) = some ('\r', t) := rfl

theorem scanEsc_u_plain (a1 a2 a3 a4 : Char) (t : List Char) (n : Nat)
    (hp : parseHex4 a1 a2 a3 a4 = some n)
    (hs1 : ¬(55296 ≤ n ∧ n < 56320)) (hs2 : ¬(56320 ≤ n ∧ n < 57344)) :
    scanEsc ('u' :: a1 :: a2 :: a3 :: a4 :: t) = some (Char.ofNat n, t) := by
  simp only [scanEsc, reduceIte]
  rw [hp]
  split
  · rename_i heq
    exact absurd heq (by simp)
  · rename_i m heq
    injection heq with he
    subst he
    rw [if_neg hs1, if_neg hs2]

theorem scanEsc_u_pair (a1 a2 a3 a4 a5 a6 a7 a8 : Char) (t : List Char)
    (n m : Nat)
    (hp1 : parseHex4 a1 a2 a3 a4 = some n)
    (hp2 : parseHex4 a5 a6 a7 a8 = some m)
    (hn : 55296 ≤ n ∧ n < 56320) (hm : 56320 ≤ m ∧ m < 57344) :
    scanEsc ('u' :: a1 :: a2 :: a3 :: a4 :: '\\' :: 'u' ::
        a5 :: a6 :: a7 :: a8 :: t) =
      some (Char.ofNat (65536 + (n - 55296) * 1024 + (m - 56320)), t) := by
  simp only [scanEsc, reduceIte]
  rw [hp1]
  split
  · rename_i heq
    exact absurd heq (by simp)
  · rename_i n2 heq
    injection heq with he
    subst he
    rw [if_pos hn, if_pos ⟨trivial, trivial⟩, hp2]
    split
    · rename_i heq3
      exact absurd heq3 (by simp)
    · rename_i m2 heq3
      injection heq3 with he3
      subst he3
      rw [if_pos hm]

theorem psbF_quoteEnd (f : Nat) (rest : List Char) :
    psbF (f + 1) ('"' :: rest) = some ([], rest) := by
  simp only [psbF, reduceIte]

theorem psbF_esc (f : Nat) (rest rest2 : List Char) (c2 : Char)
    (p : List Char × List Char)
    (hs : scanEsc rest = some (c2, rest2)) (ht : psbF f rest2 = some p) :
    psbF (f + 1) ('\\' :: rest) = some (c2 :: p.1, p.2) := by
  simp only [psbF, reduceIte]
  rw [hs]
  dsimp only []
  rw [ht]
  rfl

theorem psbF_lit (f : Nat) (c : Char) (t : List Char) (p : List Char × List Char)
    (h1 : ¬c = '"') (h2 : ¬c = '\\') (h3 : 32 ≤ c.toNat)
    (ht : psbF f t = some p) :
    psbF (f + 1) (c :: t) = some (c :: p.1, p.2) := by
  simp only [psbF]
  rw [if_neg h1, if_neg h2, if_neg (by omega), ht]
  rfl

theorem psbF_char (c : Char) (t : List Char) (f : Nat)
    (p : List Char × List Char) (ht : psbF f t = some p) :
    psbF (f + 1) (escapeChar c ++ t) = some (c :: p.1, p.2) := by
  unfold escapeChar
  by_cases h1 : c = '"'
  · subst h1
    rw [if_pos rfl]
    exact psbF_esc f _ _ _ p (scanEsc_quote t) ht
  rw [if_neg h1]
  by_cases h2 : c = '\\'
  · subst h2
    rw [if_pos rfl]
    exact psbF_esc f _ _ _ p (scanEsc_bs t) ht
  rw [if_neg h2]
  by_cases h3 : c.toNat = 8
  · rw [if_pos h3]
    have hc : c = Char.ofNat 8 := by rw [charEqIffToNat, h3]; decide
    rw [hc]
    exact psbF_esc f _ _ _ p (scanEsc_b t) ht
  rw [if_neg h3]
  by_cases h4 : c.toNat = 9
  · rw [if_pos h4]
    have hc : c = '\t' := by rw [charEqIffToNat, h4]; decide
    rw [hc]
    exact psbF_esc f _ _ _ p (scanEsc_t t) ht
  rw [if_neg h4]
  by_cases h5 : c.toNat = 10
  · rw [if_pos h5]
    have hc : c = '\n' := by rw [charEqIffToNat, h5]; decide
    rw [hc]
    exact psbF_esc f _ _ _ p (scanEsc_n t) ht
  rw [if_neg h5]
  by_cases h6 : c.toNat = 12
  · rw [if_pos h6]
    have hc : c = Char.ofNat 12 := by rw [charEqIffToNat, h6]; decide
    rw [hc]
    exact psbF_esc f _ _ _ p (scanEsc_f t) ht
  rw [if_neg h6]
  by_cases h7 : c.toNat = 13
  · rw [if_pos h7]
    have hc : c = '\r' := by rw [charEqIffToNat, h7]; decide
    rw [hc]
    exact psbF_esc f _ _ _ p (scanEsc_r t) ht
  rw [if_neg h7]
  by_cases h8 : c.toNat < 32
  · rw [if_pos h8]
    simp only [hex4_def, List.cons_append, List.nil_append]
    have hs := scanEsc_u_plain _ _ _ _ t c.toNat
      (parseHex4_hex4 c.toNat (by omega)) (by omega) (by omega)
    have := psbF_esc f _ _ _ p hs ht
    rw [Char.ofNat_toNat] at this
    exact this
  rw [if_neg h8]
  by_cases h9 : c.toNat ≤ 126
  · rw [if_pos h9]
    simp only [List.cons_append, List.nil_append]
    exact psbF_lit f c t p h1 h2 (by omega) ht
  rw [if_neg h9]
  by_cases h10 : c.toNat < 65536
  · rw [if_pos h10]
    have hns := charToNatNotSurrogate c
    simp only [hex4_def, List.cons_append, List.nil_append]
    have hs := scanEsc_u_plain _ _ _ _ t c.toNat
      (parseHex4_hex4 c.toNat (by omega))
      (by rcases hns with h | h <;> omega)
      (by rcases hns with h | h <;> omega)
    have := psbF_esc f _ _ _ p hs ht
    rw [Char.ofNat_toNat] at this
    exact this
  rw [if_neg h10]
  have hlt := charToNatLt c
  have hge : 65536 ≤ c.toNat := by omega
  have hmod := Nat.mod_lt (c.toNat - 65536) (show 0 < 1024 by omega)
  have hdiv : (c.toNat - 65536) / 1024 < 1024 := by omega
  simp only [hex4_def, List.cons_append, List.nil_append]
  have hs := scanEsc_u_pair _ _ _ _ _ _ _ _ t
    (55296 + (c.toNat - 65536) / 1024) (56320 + (c.toNat - 65536) % 1024)
    (parseHex4_hex4 _ (by omega)) (parseHex4_hex4 _ (by omega))
    (by omega) (by omega)
  have hcomb : 65536 + (55296 + (c.toNat - 65536) / 1024 - 55296) * 1024 +
      (56320 + (c.toNat - 65536) % 1024 - 56320) = c.toNat := by omega
  rw [hcomb] at hs
  have := psbF_esc f _ _ _ p hs ht
  rw [Char.ofNat_toNat] at this
  exact this

theorem psbF_escString (s : List Char) :
    ∀ f rest, s.length < f →
    psbF f (escString s ++ '"' :: rest) = some (s, rest) := by
  induction s with
  | nil =>
      intro f rest hf
      obtain ⟨g, rfl⟩ : ∃ g, f = g + 1 := ⟨f - 1, by omega⟩
      exact psbF_quoteEnd g rest
  | cons c s ih =>
      intro f rest hf
      obtain ⟨g, rfl⟩ : ∃ g, f = g + 1 := ⟨f - 1, by omega⟩
      show psbF (g + 1) ((escapeChar c ++ escString s) ++ '"' :: rest) = _
      rw [List.append_assoc]
      exact psbF_char c _ g (s, rest)
        (ih g rest (by simp at hf; omega))

theorem escapeChar_length_pos (c : Char) : 1 ≤ (escapeChar c).length := by
  unfold escapeChar
  by_cases h1 : c = '"'
  · rw [if_pos h1]; decide
  rw [if_neg h1]
  by_cases h2 : c = '\\'
  · rw [if_pos h2]; decide
  rw [if_neg h2]
  by_cases h3 : c.toNat = 8
  · rw [if_pos h3]; decide
  rw [if_neg h3]
  by_cases h4 : c.toNat = 9
  · rw [if_pos h4]; decide
  rw [if_neg h4]
  by_cases h5 : c.toNat = 10
  · rw [if_pos h5]; decide
  rw [if_neg h5]
  by_cases h6 : c.toNat = 12
  · rw [if_pos h6]; decide
  rw [if_neg h6]
  by_cases h7 : c.toNat = 13
  · rw [if_pos h7]; decide
  rw [if_neg h7]
  by_cases h8 : c.toNat < 32
  · rw [if_pos h8]
    simp only [List.length_cons]
    omega
  rw [if_neg h8]
  by_cases h9 : c.toNat ≤ 126
  · rw [if_pos h9]; simp
  rw [if_neg h9]
  by_cases h10 : c.toNat < 65536
  · rw [if_pos h10]
    simp only [List.length_cons]
    omega
  rw [if_neg h10]
  simp only [List.length_append, List.length_cons]
  omega

theorem escString_length (s : List Char) : s.length ≤ (escString s).length := by
  induction s with
  | nil => simp [escString]
  | cons c s ih =>
      have : 1 ≤ (escapeChar c).length := escapeChar_length_pos c
      simp only [escString, List.flatMap_cons, List.length_append,
        List.length_cons]
      simp only [escString] at ih
      omega

theorem psb_escString (s : List Char) (rest : List Char) :
    parseStringBody (escString s ++ '"' :: rest) = some (s, rest) := by
  unfold parseStringBody
  apply psbF_escString
  have := escString_length s
  simp only [List.length_append, List.length_cons]
  omega

/-! ## Parser/serializer round-trip -/

theorem skipSpaces_cons_space (cs : List Char) :
    skipSpaces (' ' :: cs) = skipSpaces cs := by
  simp only [skipSpaces]
  rw [if_pos (by decide)]

theorem parseVal_space (f : Nat) (cs : List Char) :
    parseVal f (' ' :: cs) = parseVal f cs := by
  cases f with
  | zero => rfl
  | succ g => simp only [parseVal, skipSpaces_cons_space]

theorem render_head (v : Json) :
    ∃ c t, render v = c :: t ∧ jsonSpace c = false ∧ c ≠ ']' := by
  cases v with
  | null => exact ⟨'n', _, rfl, by decide, by decide⟩
  | bool b =>
      cases b with
      | true => exact ⟨'t', _, rfl, by decide, by decide⟩
      | false => exact ⟨'f', _, rfl, by decide, by decide⟩
  | num n =>
      cases n with
      | ofNat m =>
          obtain ⟨c, t, he, hd⟩ := natToDigits_head m
          refine ⟨c, t, he, digit_not_space c hd, ?_⟩
          rw [isDigitIff] at hd
          intro hc
          rw [charEqIffToNat] at hc
          revert hc
          intro hc
          have : (']' : Char).toNat = 93 := by decide
          omega
      | negSucc m =>
          exact ⟨'-', _, rfl, by decide, by decide⟩
  | str s => exact ⟨'"', _, rfl, by decide, by decide⟩
  | arr xs => exact ⟨'[', _, rfl, by decide, by decide⟩
  | obj ms => exact ⟨'\x7b', _, rfl, by decide, by decide⟩

theorem parseVal_null (f : Nat) (rest : List Char) :
    parseVal (f + 1) ('n' :: 'u' :: 'l' :: 'l' :: rest) =
      some (Json.null, rest) := by
  simp only [parseVal]
  rw [skipSpaces_notSpace _ _ (by decide)]
  simp only [reduceIte]

theorem parseVal_true (f : Nat) (rest : List Char) :
    parseVal (f + 1) ('t' :: 'r' :: 'u' :: 'e' :: rest) =
      some (Json.bool true, rest) := by
  simp only [parseVal]
  rw [skipSpaces_notSpace _ _ (by decide)]
  simp only [Char.reduceEq, reduceIte]

theorem parseVal_false (f : Nat) (rest : List Char) :
    parseVal (f + 1) ('f' :: 'a' :: 'l' :: 's' :: 'e' :: rest) =
      some (Json.bool false, rest) := by
  simp only [parseVal]
  rw [skipSpaces_notSpace _ _ (by decide)]
  simp only [Char.reduceEq, reduceIte]

theorem headDigit_cons (c : Char) (t : List Char) :
    headDigit (c :: t) = c.isDigit := rfl

theorem digit_ne_char (c : Char) (hd : c.isDigit = true) (d : Char)
    (h : d.toNat < 48 ∨ 57 < d.toNat) : c ≠ d := by
  intro he
  subst he
  rw [isDigitIff] at hd
  omega

theorem parseVal_digits (f : Nat) (n : Nat) (rest : List Char)
    (hrest : headDigit rest = false) :
    parseVal (f + 1) (natToDigits n ++ rest) =
      some (Json.num (n : Int), rest) := by
  obtain ⟨c, t, he, hd⟩ := natToDigits_head n
  rw [he]
  simp only [List.cons_append]
  simp only [parseVal]
  rw [skipSpaces_notSpace _ _ (digit_not_space c hd)]
  dsimp only []
  rw [if_neg (digit_ne_char c hd 'n' (by decide)),
    if_neg (digit_ne_char c hd 't' (by decide)),
    if_neg (digit_ne_char c hd 'f' (by decide)),
    if_neg (digit_ne_char c hd '"' (by decide)),
    if_neg (digit_ne_char c hd '[' (by decide)),
    if_neg (digit_ne_char c hd '\x7b' (by decide)),
    if_neg (digit_ne_char c hd '-' (by decide)),
    if_pos hd]
  have hp : parseDigits (c :: (t ++ rest)) 0 = (n, rest) := by
    rw [show c :: (t ++ rest) = natToDigits n ++ rest by rw [he]; rfl]
    exact parseDigits_natToDigits n rest hrest
  rw [hp]

theorem parseVal_negDigits (f : Nat) (m : Nat) (rest : List Char)
    (hrest : headDigit rest = false) :
    parseVal (f + 1) (('-' :: natToDigits (m + 1)) ++ rest) =
      some (Json.num (Int.negSucc m), rest) := by
  obtain ⟨c, t, he, hd⟩ := natToDigits_head (m + 1)
  simp only [List.cons_append]
  rw [he]
  simp only [List.cons_append]
  simp only [parseVal]
  rw [skipSpaces_notSpace _ _ (by decide)]
  simp only [Char.reduceEq, reduceIte]
  rw [if_pos hd]
  have hp : parseDigits (c :: (t ++ rest)) 0 = (m + 1, rest) := by
    rw [show c :: (t ++ rest) = natToDigits (m + 1) ++ rest by rw [he]; rfl]
    exact parseDigits_natToDigits (m + 1) rest hrest
  rw [hp]
  have : -((m + 1 : Nat) : Int) = Int.negSucc m := by
    rw [Int.negSucc_eq]
    push_cast
    ring
  rw [this]

theorem parseVal_str (f : Nat) (s : List Char) (rest : List Char) :
    parseVal (f + 1) (renderString s ++ rest) = some (Json.str s, rest) := by
  simp only [renderString, List.cons_append, List.append_assoc,
    List.singleton_append, List.nil_append]
  simp only [parseVal]
  rw [skipSpaces_notSpace _ _ (by decide)]
  simp only [Char.reduceEq, reduceIte]
  rw [psb_escString s rest]

theorem renderElems_head (x : Json) (xs : List Json) :
    ∃ R, renderElems (x :: xs) = render x ++ R := by
  cases xs with
  | nil => exact ⟨[], by simp [renderElems]⟩
  | cons y ys => exact ⟨',' :: ' ' :: renderElems (y :: ys), rfl⟩

theorem renderMembers_head (k : List Char) (v : Json)
    (ms : List (List Char × Json)) :
    ∃ S, renderMembers ((k, v) :: ms) = '"' :: S := by
  cases ms with
  | nil =>
      refine ⟨(escString k ++ ['"']) ++ (':' :: ' ' :: render v), ?_⟩
      simp [renderMembers, renderString]
  | cons m2 ms2 =>
      refine ⟨(escString k ++ ['"']) ++ (':' :: ' ' :: render v) ++
        (',' :: ' ' :: renderMembers (m2 :: ms2)), ?_⟩
      simp [renderMembers, renderString]

mutual

/-- The parser inverts the serializer on any rendered value followed by a
non-digit remainder, given enough fuel. -/
theorem parseVal_render : ∀ (v : Json) (f : Nat) (rest : List Char),
    (render v).length < f → headDigit rest = false →
    parseVal f (render v ++ rest) = some (v, rest)
  | Json.null, f, rest, hf, _ => by
      obtain ⟨g, rfl⟩ : ∃ g, f = g + 1 := ⟨f - 1, by omega⟩
      simp only [render, List.cons_append, List.nil_append]
      exact parseVal_null g rest
  | Json.bool true, f, rest, hf, _ => by
      obtain ⟨g, rfl⟩ : ∃ g, f = g + 1 := ⟨f - 1, by omega⟩
      simp only [render, List.cons_append, List.nil_append]
      exact parseVal_true g rest
  | Json.bool false, f, rest, hf, _ => by
      obtain ⟨g, rfl⟩ : ∃ g, f = g + 1 := ⟨f - 1, by omega⟩
      simp only [render, List.cons_append, List.nil_append]
      exact parseVal_false g rest
  | Json.num (Int.ofNat m), f, rest, hf, hrest => by
      obtain ⟨g, rfl⟩ : ∃ g, f = g + 1 := ⟨f - 1, by omega⟩
      simp only [render, renderInt]
      exact parseVal_digits g m rest hrest
  | Json.num (Int.negSucc m), f, rest, hf, hrest => by
      obtain ⟨g, rfl⟩ : ∃ g, f = g + 1 := ⟨f - 1, by omega⟩
      simp only [render, renderInt]
      exact parseVal_negDigits g m rest hrest
  | Json.str s, f, rest, hf, _ => by
      obtain ⟨g, rfl⟩ : ∃ g, f = g + 1 := ⟨f - 1, by omega⟩
      simp only [render]
      exact parseVal_str g s rest
  | Json.arr [], f, rest, hf, _ => by
      obtain ⟨g, rfl⟩ : ∃ g, f = g + 1 := ⟨f - 1, by omega⟩
      simp only [render, renderElems, List.nil_append, List.cons_append,
        List.singleton_append]
      simp only [parseVal]
      rw [skipSpaces_notSpace _ _ (by decide)]
      simp only [Char.reduceEq, reduceIte]
      rw [skipSpaces_notSpace _ _ (by decide)]
      exact rfl
  | Json.arr (x :: xs), f, rest, hf, _ => by
      obtain ⟨g, rfl⟩ : ∃ g, f = g + 1 := ⟨f - 1, by omega⟩
      obtain ⟨R, hRe⟩ := renderElems_head x xs
      obtain ⟨c, t, hct, hcs, hcne⟩ := render_head x
      simp only [render, List.cons_append]
      simp only [parseVal]
      rw [skipSpaces_notSpace _ _ (by decide)]
      simp only [Char.reduceEq, reduceIte]
      have hshape : (renderElems (x :: xs) ++ [']']) ++ rest =
          renderElems (x :: xs) ++ ']' :: rest := by
        rw [List.append_assoc]
        rfl
      have hskip : skipSpaces ((renderElems (x :: xs) ++ [']']) ++ rest) =
          c :: (t ++ (R ++ ']' :: rest)) := by
        rw [hshape, hRe, List.append_assoc, hct]
        simp only [List.cons_append]
        exact skipSpaces_notSpace _ _ hcs
      split
      · rename_i r heq
        rw [hskip] at heq
        injection heq with h1 _
        exact absurd h1 hcne
      · have hrec := parseElems_render x xs g rest [] (Or.inl rfl)
          (by
            simp only [render, List.length_cons, List.length_append] at hf
            simp only [List.length_cons, List.length_nil] at hf
            omega)
        rw [List.nil_append] at hrec
        rw [hshape, hrec]
  | Json.obj [], f, rest, hf, _ => by
      obtain ⟨g, rfl⟩ : ∃ g, f = g + 1 := ⟨f - 1, by omega⟩
      simp only [render, renderMembers, List.nil_append, List.cons_append,
        List.singleton_append]
      simp only [parseVal]
      rw [skipSpaces_notSpace _ _ (by decide)]
      simp only [Char.reduceEq, reduceIte]
      rw [skipSpaces_notSpace _ _ (by decide)]
      exact rfl
  | Json.obj ((k, v) :: ms), f, rest, hf, _ => by
      obtain ⟨g, rfl⟩ : ∃ g, f = g + 1 := ⟨f - 1, by omega⟩
      obtain ⟨S, hSe⟩ := renderMembers_head k v ms
      simp only [render, List.cons_append]
      simp only [parseVal]
      rw [skipSpaces_notSpace _ _ (by decide)]
      simp only [Char.reduceEq, reduceIte]
      have hshape : (renderMembers ((k, v) :: ms) ++ ['\x7d']) ++ rest =
          renderMembers ((k, v) :: ms) ++ '\x7d' :: rest := by
        rw [List.append_assoc]
        rfl
      have hskip : skipSpaces ((renderMembers ((k, v) :: ms) ++ ['\x7d']) ++
          rest) = '"' :: (S ++ '\x7d' :: rest) := by
        rw [hshape, hSe]
        simp only [List.cons_append]
        exact skipSpaces_notSpace _ _ (by decide)
      split
      · rename_i r heq
        rw [hskip] at heq
        injection heq with h1 _
        exact absurd h1 (by decide)
      · have hrec := parseMembers_render k v ms g rest [] (Or.inl rfl)
          (by
            simp only [render, List.length_cons, List.length_append] at hf
            simp only [List.length_cons, List.length_nil] at hf
            omega)
        rw [List.nil_append] at hrec
        rw [hshape, hrec]
termination_by v f rest h1 h2 => sizeOf v

/-- The parser for array elements inverts the serializer on a rendered
non-empty element list followed by `]`, given enough fuel, tolerating one
leading space. -/
theorem parseElems_render : ∀ (x : Json) (xs : List Json) (f : Nat)
    (rest sp : List Char), (sp = [] ∨ sp = [' ']) →
    (renderElems (x :: xs)).length + 1 < f →
    parseElems f (sp ++ renderElems (x :: xs) ++ ']' :: rest) =
      some (x :: xs, rest)
  | x, [], f, rest, sp, hsp, hf => by
      obtain ⟨g, rfl⟩ : ∃ g, f = g + 1 := ⟨f - 1, by omega⟩
      have hx : parseVal g (render x ++ ']' :: rest) = some (x, ']' :: rest) :=
        parseVal_render x g (']' :: rest)
          (by simp only [renderElems] at hf; omega)
          (by rw [headDigit_cons]; decide)
      simp only [parseElems, renderElems]
      rcases hsp with rfl | rfl
      · rw [List.nil_append, hx]
        dsimp only []
        rw [skipSpaces_notSpace _ _ (by decide)]
        rfl
      · rw [List.singleton_append, List.cons_append, parseVal_space, hx]
        dsimp only []
        rw [skipSpaces_notSpace _ _ (by decide)]
        rfl
  | x, y :: ys, f, rest, sp, hsp, hf => by
      obtain ⟨g, rfl⟩ : ∃ g, f = g + 1 := ⟨f - 1, by omega⟩
      have hlen : (render x).length + 2 + (renderElems (y :: ys)).length + 1 <
          g + 1 := by
        simp only [renderElems, List.length_append, List.length_cons] at hf ⊢
        omega
      have hx : parseVal g (render x ++
          ',' :: ' ' :: (renderElems (y :: ys) ++ ']' :: rest)) =
          some (x, ',' :: ' ' :: (renderElems (y :: ys) ++ ']' :: rest)) :=
        parseVal_render x g _ (by omega) (by rw [headDigit_cons]; decide)
      have hrec := parseElems_render y ys g rest [' '] (Or.inr rfl)
        (by omega)
      rw [List.singleton_append, List.cons_append] at hrec
      have hshape : renderElems (x :: y :: ys) ++ ']' :: rest =
          render x ++ (',' :: ' ' :: (renderElems (y :: ys) ++ ']' :: rest)) := by
        show (render x ++ (',' :: ' ' :: renderElems (y :: ys))) ++ ']' :: rest = _
        rw [List.append_assoc]
        rfl
      simp only [parseElems]
      rcases hsp with rfl | rfl
      · rw [List.nil_append, hshape, hx]
        dsimp only []
        rw [skipSpaces_notSpace _ _ (by decide)]
        split
        · rename_i r2 heq
          injection heq with h1 h2
          subst h2
          rw [hrec]
        · rename_i r2 heq
          injection heq with h1 _
          exact absurd h1 (by decide)
        · rename_i hno1 hno2
          exact absurd rfl (hno1 (' ' :: (renderElems (y :: ys) ++ ']' :: rest)))
      · rw [List.singleton_append, List.cons_append, hshape, parseVal_space, hx]
        dsimp only []
        rw [skipSpaces_notSpace _ _ (by decide)]
        split
        · rename_i r2 heq
          injection heq with h1 h2
          subst h2
          rw [hrec]
        · rename_i r2 heq
          injection heq with h1 _
          exact absurd h1 (by decide)
        · rename_i hno1 hno2
          exact absurd rfl (hno1 (' ' :: (renderElems (y :: ys) ++ ']' :: rest)))
termination_by x xs f rest sp h1 h2 => sizeOf (x :: xs)

/-- The parser for object members inverts the serializer on a rendered
non-empty member list followed by the closing brace, given enough fuel,
tolerating one leading space. -/
theorem parseMembers_render : ∀ (k : List Char) (v : Json)
    (ms : List (List Char × Json)) (f : Nat) (rest sp : List Char),
    (sp = [] ∨ sp = [' ']) →
    (renderMembers ((k, v) :: ms)).length + 1 < f →
    parseMembers f (sp ++ renderMembers ((k, v) :: ms) ++ '\x7d' :: rest) =
      some ((k, v) :: ms, rest)
  | k, v, [], f, rest, sp, hsp, hf => by
      obtain ⟨g, rfl⟩ : ∃ g, f = g + 1 := ⟨f - 1, by omega⟩
      have hv : parseVal g (render v ++ '\x7d' :: rest) =
          some (v, '\x7d' :: rest) :=
        parseVal_render v g ('\x7d' :: rest)
          (by
            simp only [renderMembers, renderString, List.length_append,
              List.length_cons] at hf
            omega)
          (by rw [headDigit_cons]; decide)
      have hshape : ∀ sp2 : List Char,
          sp2 ++ renderMembers [(k, v)] ++ '\x7d' :: rest =
          sp2 ++ ('"' :: (escString k ++
            '"' :: (':' :: ' ' :: (render v ++ '\x7d' :: rest)))) := by
        intro sp2
        simp only [renderMembers, renderString, List.cons_append,
          List.append_assoc, List.singleton_append, List.nil_append]
      simp only [parseMembers]
      have main : parseMembers (g + 1)
          ('"' :: (escString k ++
            '"' :: (':' :: ' ' :: (render v ++ '\x7d' :: rest)))) =
          some ([(k, v)], rest) := by
        simp only [parseMembers]
        rw [skipSpaces_notSpace _ _ (by decide)]
        split
        · rename_i r heq
          injection heq with h1 h2
          subst h2
          rw [psb_escString k _]
          split
          · rename_i heq2
            exact absurd heq2 (by simp)
          · rename_i k2 r1 heq2
            injection heq2 with h3
            injection h3 with h4 h5
            subst h4
            subst h5
            rw [skipSpaces_notSpace _ _ (by decide)]
            split
            · rename_i r2 heq3
              injection heq3 with h6 h7
              subst h7
              rw [parseVal_space, hv]
              dsimp only []
              rw [skipSpaces_notSpace _ _ (by decide)]
              exact rfl
            · rename_i hno
              exact absurd rfl
                (hno (' ' :: (render v ++ '\x7d' :: rest)))
        · rename_i hno
          exact absurd rfl
            (hno (escString k ++
              '"' :: (':' :: ' ' :: (render v ++ '\x7d' :: rest))))
      rcases hsp with rfl | rfl
      · rw [hshape [], List.nil_append]
        exact main
      · rw [hshape [' '], List.singleton_append]
        calc parseMembers (g + 1) (' ' :: ('"' :: (escString k ++
              '"' :: (':' :: ' ' :: (render v ++ '\x7d' :: rest))))) =
            parseMembers (g + 1) ('"' :: (escString k ++
              '"' :: (':' :: ' ' :: (render v ++ '\x7d' :: rest)))) := by
              simp only [parseMembers, skipSpaces_cons_space]
          _ = some ([(k, v)], rest) := main
  | k, v, (k2, v2) :: ms2, f, rest, sp, hsp, hf => by
      obtain ⟨g, rfl⟩ : ∃ g, f = g + 1 := ⟨f - 1, by omega⟩
      have hlen : (renderMembers ((k2, v2) :: ms2)).length + 1 < g := by
        simp only [renderMembers, renderString, List.length_append,
          List.length_cons] at hf ⊢
        omega
      have hv : parseVal g (render v ++
          ',' :: ' ' :: (renderMembers ((k2, v2) :: ms2) ++ '\x7d' :: rest)) =
          some (v, ',' :: ' ' ::
            (renderMembers ((k2, v2) :: ms2) ++ '\x7d' :: rest)) :=
        parseVal_render v g _
          (by
            simp only [renderMembers, renderString, List.length_append,
              List.length_cons] at hf
            omega)
          (by rw [headDigit_cons]; decide)
      have hrec := parseMembers_render k2 v2 ms2 g rest [' '] (Or.inr rfl)
        (by omega)
      rw [List.singleton_append, List.cons_append] at hrec
      have hshape : ∀ sp2 : List Char,
          sp2 ++ renderMembers ((k, v) :: (k2, v2) :: ms2) ++ '\x7d' :: rest =
          sp2 ++ ('"' :: (escString k ++
            '"' :: (':' :: ' ' :: (render v ++
              ',' :: ' ' :: (renderMembers ((k2, v2) :: ms2) ++
                '\x7d' :: rest))))) := by
        intro sp2
        simp only [renderMembers, renderString, List.cons_append,
          List.append_assoc, List.singleton_append, List.nil_append]
      have main : parseMembers (g + 1)
          ('"' :: (escString k ++
            '"' :: (':' :: ' ' :: (render v ++
              ',' :: ' ' :: (renderMembers ((k2, v2) :: ms2) ++
                '\x7d' :: rest))))) =
          some ((k, v) :: (k2, v2) :: ms2, rest) := by
        simp only [parseMembers]
        rw [skipSpaces_notSpace _ _ (by decide)]
        split
        · rename_i r heq
          injection heq with h1 h2
          subst h2
          rw [psb_escString k _]
          split
          · rename_i heq2
            exact absurd heq2 (by simp)
          · rename_i k3 r1 heq2
            injection heq2 with h3
            injection h3 with h4 h5
            subst h4
            subst h5
            rw [skipSpaces_notSpace _ _ (by decide)]
            split
            · rename_i r2 heq3
              injection heq3 with h6 h7
              subst h7
              rw [parseVal_space, hv]
              dsimp only []
              rw [skipSpaces_notSpace _ _ (by decide)]
              split
              · rename_i r4 heq4
                injection heq4 with h8 h9
                subst h9
                rw [hrec]
              · rename_i r4 heq4
                injection heq4 with h8
                exact absurd h8 (by decide)
              · rename_i hno1 hno2
                exact absurd rfl
                  (hno1 (' ' :: (renderMembers ((k2, v2) :: ms2) ++
                    '\x7d' :: rest)))
            · rename_i hno
              exact absurd rfl
                (hno (' ' :: (render v ++
                  ',' :: ' ' :: (renderMembers ((k2, v2) :: ms2) ++
                    '\x7d' :: rest))))
        · rename_i hno
          exact absurd rfl
            (hno (escString k ++
              '"' :: (':' :: ' ' :: (render v ++
                ',' :: ' ' :: (renderMembers ((k2, v2) :: ms2) ++
                  '\x7d' :: rest)))))
      rcases hsp with rfl | rfl
      · rw [hshape [], List.nil_append]
        exact main
      · rw [hshape [' '], List.singleton_append]
        calc parseMembers (g + 1) (' ' :: ('"' :: (escString k ++
              '"' :: (':' :: ' ' :: (render v ++
                ',' :: ' ' :: (renderMembers ((k2, v2) :: ms2) ++
                  '\x7d' :: rest)))))) =
            parseMembers (g + 1) ('"' :: (escString k ++
              '"' :: (':' :: ' ' :: (render v ++
                ',' :: ' ' :: (renderMembers ((k2, v2) :: ms2) ++
                  '\x7d' :: rest))))) := by
              simp only [parseMembers, skipSpaces_cons_space]
          _ = some ((k, v) :: (k2, v2) :: ms2, rest) := main
termination_by k v ms f rest sp h1 h2 => sizeOf ((k, v) :: ms)

end

/-- Parsing inverts serialization on every document. -/
theorem loads_render (v : Json) : loads (render v) = some v := by
  unfold loads
  have h := parseVal_render v ((render v).length + 1) [] (by omega) rfl
  rw [List.append_nil] at h
  rw [h]
  exact rfl

/-- The persisted-form round-trip: base64/UTF-8/JSON decoding inverts
base64/UTF-8/JSON encoding on every document. -/
theorem decodeConfig_encodeConfig (doc : Json) :
    decodeConfig (encodeConfig doc) = some doc := by
  unfold encodeConfig decodeConfig
  rw [b64_roundtrip (asciiEncode (render doc))
    (by
      intro b hb
      simp only [asciiEncode, List.mem_map] at hb
      obtain ⟨c, hc, rfl⟩ := hb
      have := render_ascii doc c hc
      omega)]
  rw [Option.some_bind]
  rw [ascii_roundtrip (render doc) (render_ascii doc)]
  rw [Option.some_bind]
  exact loads_render doc

/-! ## Claims -/

/-- C1: for every JSON-serializable filter or action configuration
document, encoding it to its persisted opaque form (base64 of its UTF-8
JSON serialization, as done in `TriggerSchema.from_request`) and then
decoding it back (JSON parse of the base64 decode, as done in
`TriggerSchema.to_model`) yields a structurally equal document. -/
theorem claim_C1_config_roundtrip :
    ∀ doc : Json, decodeConfig (encodeConfig doc) = some doc :=
  decodeConfig_encodeConfig

/-- C2: for every trigger schema and every update supplying an
`event_filter` document, `TriggerSchema.update` replaces the stored filter
wholesale with the encoding of the new document — the result depends on the
new document alone — and decoding the stored filter yields exactly the new
document. -/
theorem claim_C2_update_replaces_filter :
    ∀ (s : TriggerSchema) (u : TriggerUpdate) (now : Nat) (doc : Json),
    u.event_filter = some doc →
    (s.update u now).event_filter = encodeConfig doc ∧
    decodeConfig ((s.update u now).event_filter) = some doc := by
  intro s u now doc h
  unfold TriggerSchema.update
  rw [h]
  exact ⟨rfl, decodeConfig_encodeConfig doc⟩

/-- C2 witness: updating with the filter `docB` stores exactly
`encodeConfig docB`, which decodes back to `docB`. -/
theorem claim_C2_witness :
    (testTrigger.update updB 1).event_filter = encodeConfig docB ∧
    decodeConfig ((testTrigger.update updB 1).event_filter) = some docB :=
  claim_C2_update_replaces_filter testTrigger updB 1 docB rfl

/-- C3 counterexample: the claim that every field not supplied in the
update keeps its previous value is false — an empty update still refreshes
the `updated` timestamp (`datetime.utcnow()` in the source). -/
theorem claim_C3_counterexample :
    (testTrigger.update {} 1).updated ≠ testTrigger.updated := by
  decide

/-- C3 (amended): `TriggerSchema.update` changes exactly the supplied
non-`None` fields plus the `updated` timestamp, which is always refreshed;
every other field keeps its previous value. -/
theorem claim_C3_update_frame :
    ∀ (s : TriggerSchema) (u : TriggerUpdate) (now : Nat),
    (u.name = none → (s.update u now).name = s.name) ∧
    (∀ x, u.name = some x → (s.update u now).name = x) ∧
    (u.description = none → (s.update u now).description = s.description) ∧
    (∀ d, u.description = some d → (s.update u now).description = some d) ∧
    (u.event_filter = none →
      (s.update u now).event_filter = s.event_filter) ∧
    (u.action = none → (s.update u now).action = s.action) ∧
    (u.is_active = none → (s.update u now).is_active = s.is_active) ∧
    (∀ b, u.is_active = some b → (s.update u now).is_active = b) ∧
    (s.update u now).id = s.id ∧
    (s.update u now).workspace_id = s.workspace_id ∧
    (s.update u now).user_id = s.user_id ∧
    (s.update u now).event_source_id = s.event_source_id ∧
    (s.update u now).action_flavor = s.action_flavor ∧
    (s.update u now).action_subtype = s.action_subtype ∧
    (s.update u now).created = s.created ∧
    (s.update u now).updated = now := by
  intro s u now
  unfold TriggerSchema.update
  refine ⟨?_, ?_, ?_, ?_, ?_, ?_, ?_, ?_,
    rfl, rfl, rfl, rfl, rfl, rfl, rfl, rfl⟩
  · intro h; simp [h]
  · intro x h; simp [h]
  · intro h; simp [h]
  · intro d h; simp [h]
  · intro h; simp [h]
  · intro h; simp [h]
  · intro h; simp [h]
  · intro b h; simp [h]

/-- C3 witness: under the update supplying only a filter, the name is
unchanged and the `updated` timestamp becomes the current time. -/
theorem claim_C3_witness :
    (testTrigger.update updB 1).name = testTrigger.name ∧
    (testTrigger.update updB 1).updated = 1 :=
  ⟨(claim_C3_update_frame testTrigger updB 1).1 rfl,
   (claim_C3_update_frame testTrigger updB
     1).2.2.2.2.2.2.2.2.2.2.2.2.2.2.2⟩

/-- Whether `Resource` construction raised a `ValueError`. -/
def isError {ε α : Type} : Except ε α → Bool
  | Except.error _ => true
  | Except.ok _ => false

/-- C4: constructing an RBAC `Resource` fails with a `ValueError` iff the
resource type is workspace-scoped and `workspace_id` is unset, or the type
is unscoped and `workspace_id` is set; every flexible-scoped type can be
constructed both with and without a `workspace_id`. -/
theorem claim_C4_resource_scoping :
    ∀ (t : ResourceType) (rid wid : Option Nat) (w : Nat),
    (isError (mkResource t rid wid) = true ↔
      (t.is_workspace_scoped = true ∧ wid = none) ∨
      (t.is_unscoped = true ∧ wid ≠ none)) ∧
    (t.is_flexible_scoped = true →
      isError (mkResource t rid none) = false ∧
      isError (mkResource t rid (some w)) = false) := by
  intro t rid wid w
  constructor
  · unfold mkResource
    split_ifs with h1 h2
    · exact ⟨fun _ => Or.inl h1, fun _ => rfl⟩
    · exact ⟨fun _ => Or.inr h2, fun _ => rfl⟩
    · constructor
      · intro hfalse
        exact Bool.noConfusion hfalse
      · intro hor
        rcases hor with h | h
        · exact absurd h h1
        · exact absurd h h2
  · intro hflex
    have hws : t.is_workspace_scoped = false := by
      unfold ResourceType.is_workspace_scoped
      rw [hflex]
      rfl
    have hun : t.is_unscoped = false := by
      revert hflex
      cases t <;> intro hflex <;>
        first
          | rfl
          | exact absurd hflex (by decide)
    constructor
    · unfold mkResource
      rw [if_neg (by simp [hws]), if_neg (by simp [hun])]
      rfl
    · unfold mkResource
      rw [if_neg (by simp [hws]), if_neg (by simp [hun])]
      rfl

/-- C4 witness: the flexible-scoped type `FLAVOR` constructs successfully
both without and with a `workspace_id`. -/
theorem claim_C4_witness :
    isError (mkResource ResourceType.FLAVOR none none) = false ∧
    isError (mkResource ResourceType.FLAVOR none (some 0)) = false :=
  (claim_C4_resource_scoping ResourceType.FLAVOR none none 0).2 rfl

/-- C5: the code declares the `TriggerSchema.event_source_id` foreign key
with `ondelete="CASCADE"`, so deleting a trigger's event source silently
deletes the trigger row — contradicting the documented invariant (and the
code's own TODO comment saying it should be `SET NULL` plus
deactivation). -/
theorem claim_C5_cascade_divergence :
    triggerSchema_event_source_fk.ondelete = OnDelete.CASCADE ∧
    deleteEventSource [testTrigger] 7 = [] := by
  constructor
  · rfl
  · rfl

/-- C6: every trigger-execution row carries a non-nullable `trigger_id`
foreign key with `ondelete="CASCADE"`, and deleting a trigger removes every
execution referencing it. -/
theorem claim_C6_execution_lifetime :
    (triggerExecution_trigger_fk.nullable = false ∧
     triggerExecution_trigger_fk.ondelete = OnDelete.CASCADE) ∧
    ∀ (execs : List TriggerExecutionSchema) (tid : Nat),
      ∀ e ∈ deleteTrigger execs tid, e.trigger_id ≠ tid := by
  refine ⟨⟨rfl, rfl⟩, ?_⟩
  intro execs tid e he
  simp only [deleteTrigger, triggerExecution_trigger_fk,
    List.mem_filter, decide_eq_true_eq] at he
  exact he.2

/-- C6 witness: an execution surviving a trigger deletion does not
reference the deleted trigger. -/
theorem claim_C6_witness : testExec.trigger_id ≠ 5 :=
  claim_C6_execution_lifetime.2 [testExec] 5 testExec
    (by simp [deleteTrigger, triggerExecution_trigger_fk]; decide)

/-- C7: `TriggerSchema.to_model` with `include_metadata := false` leaves
the response metadata `none`; with `include_metadata := true` it populates
the metadata with the decoded `event_filter` and `action` documents, the
description, the workspace and the event source. -/
theorem claim_C7_to_model_metadata :
    ∀ (s : TriggerSchema) (ir : Bool),
    (∃ r, s.to_model false ir = some r ∧ r.metadata = none) ∧
    (∀ ef ac, decodeConfig s.event_filter = some ef →
      decodeConfig s.action = some ac →
      ∃ r, s.to_model true ir = some r ∧
        r.metadata = some { workspace := s.workspace, event_filter := ef
                            action := ac, description := s.description
                            event_source := s.event_source.id }) := by
  intro s ir
  constructor
  · exact ⟨_, rfl, rfl⟩
  · intro ef ac hef hac
    unfold TriggerSchema.to_model
    rw [if_pos rfl, hef, hac]
    exact ⟨_, rfl, rfl⟩

/-- C7 witness: on a concrete trigger whose blobs encode `docA`, the
non-hydrated response has no metadata and the hydrated response carries the
decoded documents. -/
theorem claim_C7_witness :
    (∃ r, testTrigger.to_model false false = some r ∧ r.metadata = none) ∧
    (∃ r, testTrigger.to_model true false = some r ∧
      r.metadata = some { workspace := testTrigger.workspace
                          event_filter := docA, action := docA
                          description := testTrigger.description
                          event_source := testTrigger.event_source.id }) :=
  ⟨(claim_C7_to_model_metadata testTrigger false).1,
   (claim_C7_to_model_metadata testTrigger false).2 docA docA
     (decodeConfig_encodeConfig docA) (decodeConfig_encodeConfig docA)⟩

/-- C8: `TriggerSchema.from_request` always produces an active trigger,
regardless of the request. -/
theorem claim_C8_created_active :
    ∀ (r : TriggerRequest) (id now : Nat) (es : EventSourceRef),
    (TriggerSchema.from_request r id now es).is_active = true := by
  intro r id now es
  rfl

/-- C9: for a trigger execution whose `event_metadata` is absent,
`to_model` with `include_metadata := true` succeeds and returns the empty
document as event metadata. -/
theorem claim_C9_absent_metadata :
    ∀ (e : TriggerExecutionSchema) (ir : Bool), e.event_metadata = none →
    ∃ resp, e.to_model true ir = some resp ∧
      resp.metadata = some { event_metadata := Json.obj [] } := by
  intro e ir h
  unfold TriggerExecutionSchema.to_model
  rw [h]
  exact ⟨_, rfl, rfl⟩

/-- C9 witness: the concrete execution without metadata hydrates to the
empty document. -/
theorem claim_C9_witness :
    ∃ resp, testExec.to_model true false = some resp ∧
      resp.metadata = some { event_metadata := Json.obj [] } :=
  claim_C9_absent_metadata testExec false rfl

/-- C10: the three scoping predicates on `ResourceType` are mutually
exclusive and jointly exhaustive: every resource type satisfies exactly one
of them. -/
theorem claim_C10_scoping_partition :
    ∀ t : ResourceType,
    (t.is_workspace_scoped = true ∧ t.is_flexible_scoped = false ∧
      t.is_unscoped = false) ∨
    (t.is_workspace_scoped = false ∧ t.is_flexible_scoped = true ∧
      t.is_unscoped = false) ∨
    (t.is_workspace_scoped = false ∧ t.is_flexible_scoped = false ∧
      t.is_unscoped = true) := by
  intro t
  cases t <;> decide
